import Mathlib

/-!
Shallow embedding of `fixLicense.py` (kalyi/DevelScripts).

The program scans a source file for a license/copyright header comment and
reconciles it with a canonical reference text.  Files are modelled as
`List String` (one entry per line, newline characters preserved, exactly as
produced by Python's `readlines`).  Python `int` return values (including the
`(-1, -1)` not-found sentinel) are modelled as `Int`; loop counters that are
always non-negative are `Nat`.  Downward-counting `while`/`for` loops over
line indices are structural recursion on the index; upward-counting loops are
structural recursion on an explicit fuel argument that is always instantiated
with `lines.length`, which bounds the number of iterations of the
corresponding Python loop, so the embedded functions compute the same values
as the Python loops on every input.
-/

namespace FixLicense

/-- Python's notion of whitespace for `str.strip()`. -/
def pyIsSpace (c : Char) : Bool :=
  c == ' ' || c == '\t' || c == '\n' || c == '\r' || c == '\x0B' || c == '\x0C'

/-- Python `str.strip()`: remove leading and trailing whitespace.
(Defined over the character list so that it is structurally recursive and
computes inside the kernel.) -/
def strip (s : String) : String :=
  String.mk (((s.data.dropWhile pyIsSpace).reverse.dropWhile pyIsSpace).reverse)

/-- Python `s.startswith(t)`. -/
def pyStartsWith (s t : String) : Bool := List.isPrefixOf t.data s.data

/-- Python `s.endswith(t)`. -/
def pyEndsWith (s t : String) : Bool := List.isSuffixOf t.data s.data

/-- Python `s.lower()`. -/
def pyToLower (s : String) : String := String.mk (s.data.map Char.toLower)

/-- Contiguous-sublist test on character lists (Python's `in` on strings). -/
def listHasInfix (pat : List Char) : List Char → Bool
  | [] => pat.isEmpty
  | c :: rest => List.isPrefixOf pat (c :: rest) || listHasInfix pat rest

/-- Python `indicators[i] in l.lower()`: case-insensitive substring test used
by `findLicense` (fixLicense.py line 55). -/
def indicatorHits (ind l : String) : Bool :=
  listHasInfix ind.data (pyToLower l).data

/-- Inner loop of `findLicense` (fixLicense.py lines 53-57): scan the lines,
keeping the running line number `n`, and return the number of the first line
whose lowercased text contains the indicator. -/
def findLineFrom (ind : String) (n : Nat) : List String → Option Nat
  | [] => none
  | l :: ls => if indicatorHits ind l then some n else findLineFrom ind (n + 1) ls

/-- Outer loop of `findLicense` (fixLicense.py lines 52-58): try the
indicators in order, keeping the running indicator index `k`; for each
indicator scan the whole file before moving to the next one. -/
def findLicenseAux (lines : List String) (k : Nat) : List String → Int × Int
  | [] => (-1, -1)
  | ind :: rest =>
    match findLineFrom ind 0 lines with
    | some n => (Int.ofNat n, Int.ofNat k)
    | none => findLicenseAux lines (k + 1) rest

/-- `findLicense(lines, indicators)` (fixLicense.py lines 49-58): return the
`(lineNo, indicatorIndex)` of the first match, indicator order taking
priority over line order, or the sentinel `(-1, -1)`. -/
def findLicense (lines indicators : List String) : Int × Int :=
  findLicenseAux lines 0 indicators

/-- The loop over `lineComments` in `gatherCommentBlock` (fixLicense.py
lines 64-70): the first configured line-comment token the stripped hit line
starts with, if any; `none` means `inBlockComment` stays `True`. -/
def chooseLineCmt (startLine : String) (lineComments : List String) : Option String :=
  lineComments.find? (fun c => pyStartsWith startLine c)

/-- Upward walk of the line-comment branch (fixLicense.py lines 74-76):
`while commentBlockBegin > 0 and lines[commentBlockBegin-1].strip().startswith(lineCmt)`. -/
def walkUp (lines : List String) (lineCmt : String) : Nat → Nat
  | 0 => 0
  | i + 1 =>
    if pyStartsWith (strip (lines.getD i "")) lineCmt then walkUp lines lineCmt i
    else i + 1

/-- Downward walk of the line-comment branch (fixLicense.py lines 77-79):
`while commentBlockEnd < len(lines)-1 and lines[commentBlockEnd+1].strip().startswith(lineCmt)`.
The fuel argument is instantiated with `lines.length`, which bounds the
number of loop iterations. -/
def walkDown (lines : List String) (lineCmt : String) : Nat → Nat → Nat
  | 0, i => i
  | fuel + 1, i =>
    if i < lines.length - 1 ∧ pyStartsWith (strip (lines.getD (i + 1) "")) lineCmt
    then walkDown lines lineCmt fuel (i + 1)
    else i

/-- Outcome of the inner `for (b,e) in blockComments` loop at one line
(fixLicense.py lines 85-93). -/
inductive PairScan
  | found (e : String)
  | closerHit
  | nothing
deriving DecidableEq

/-- Inner loop over the block-comment delimiter pairs at one stripped line
(fixLicense.py lines 85-93): an opener match wins, otherwise a trailing
closer match aborts the whole scan. -/
def scanPairs (curLine : String) : List (String × String) → PairScan
  | [] => .nothing
  | (b, e) :: rest =>
    if pyStartsWith curLine b then .found e
    else if pyEndsWith curLine e then .closerHit
    else scanPairs curLine rest

/-- Result of the upward scan for a block-comment opener. -/
inductive UpScan
  | found (i : Nat) (e : String)
  | failed
  | top
deriving DecidableEq

/-- Upward scan of the block-comment branch (fixLicense.py lines 83-98):
`for i in range(start-1, -1, -1)`, applying `scanPairs` at each line.
`.failed` is the early `return (-1,-1)` on a trailing closer; `.top` is
falling off the top of the file with no opener found. -/
def scanUp (lines : List String) (blockComments : List (String × String)) : Nat → UpScan
  | 0 => .top
  | i + 1 =>
    match scanPairs (strip (lines.getD i "")) blockComments with
    | .found e => .found i e
    | .closerHit => .failed
    | .nothing => scanUp lines blockComments i

/-- Downward scan for the matching block-comment closer (fixLicense.py
lines 99-103): `for i in range(start+1, len(lines))`, stopping at the first
line whose stripped text ends with `endBlockCmt`; if none is found,
`commentBlockEnd` keeps its initial value `start`. -/
def scanDown (lines : List String) (endBlockCmt : String) (start : Nat) : Nat → Nat → Nat
  | 0, _ => start
  | fuel + 1, i =>
    if i < lines.length then
      if pyEndsWith (strip (lines.getD i "")) endBlockCmt then i
      else scanDown lines endBlockCmt start fuel (i + 1)
    else start

/-- Blank-line absorption before the block (fixLicense.py lines 105-108):
`for i in range(commentBlockBegin-1, -1, -1)`, stopping at the first
non-blank line and moving the begin just below it; if no non-blank line is
found the begin keeps its initial value `b0`. -/
def grabEmptyBeforeAux (lines : List String) (b0 : Nat) : Nat → Nat
  | 0 => b0
  | i + 1 =>
    if 0 < (strip (lines.getD i "")).length then i + 1
    else grabEmptyBeforeAux lines b0 i

/-- Entry point of the backward absorption loop, started at
`commentBlockBegin - 1`. -/
def grabEmptyBefore (lines : List String) (b : Nat) : Nat :=
  grabEmptyBeforeAux lines b b

/-- Blank-line absorption after the block (fixLicense.py lines 109-112):
`for i in range(commentBlockEnd+1, len(lines))`, stopping at the first
non-blank line and moving the end just above it; if no non-blank line is
found the end keeps its initial value `e0`. -/
def grabEmptyAfterAux (lines : List String) (e0 : Nat) : Nat → Nat → Nat
  | 0, _ => e0
  | fuel + 1, i =>
    if i < lines.length then
      if 0 < (strip (lines.getD i "")).length then i - 1
      else grabEmptyAfterAux lines e0 fuel (i + 1)
    else e0

/-- Entry point of the forward absorption loop, started at
`commentBlockEnd + 1`. -/
def grabEmptyAfter (lines : List String) (e : Nat) : Nat :=
  grabEmptyAfterAux lines e lines.length (e + 1)

/-- `gatherCommentBlock(lines, start, lineComments, blockComments)`
(fixLicense.py lines 60-113): the inclusive comment-block range containing
`lines[start]`, as a pair of Python ints, or the sentinel `(-1, -1)`. -/
def gatherCommentBlock (lines : List String) (start : Nat) (lineComments : List String)
    (blockComments : List (String × String)) : Int × Int :=
  match chooseLineCmt (strip (lines.getD start "")) lineComments with
  | some lineCmt =>
    (Int.ofNat (grabEmptyBefore lines (walkUp lines lineCmt start)),
     Int.ofNat (grabEmptyAfter lines (walkDown lines lineCmt lines.length start)))
  | none =>
    match scanUp lines blockComments start with
    | .failed => (-1, -1)
    | .top => (-1, -1)
    | .found i endBlockCmt =>
      (Int.ofNat (grabEmptyBefore lines i),
       Int.ofNat (grabEmptyAfter lines (scanDown lines endBlockCmt start lines.length (start + 1))))

/-- Python slice `xs[:n]`, for a possibly negative bound. -/
def pySliceTo (xs : List String) (n : Int) : List String :=
  if 0 ≤ n then xs.take n.toNat else xs.take (xs.length - (-n).toNat)

/-- Python slice `xs[n:]`, for a possibly negative bound. -/
def pySliceFrom (xs : List String) (n : Int) : List String :=
  if 0 ≤ n then xs.drop n.toNat else xs.drop (xs.length - (-n).toNat)

/-- Python slice `xs[a:b]` for non-negative bounds, used for
`fileLines[begin:end+1]` (fixLicense.py line 150). -/
def pySliceRange (xs : List String) (a b : Nat) : List String :=
  (xs.drop a).take (b - a)

/-- `writeFile(filename, oldLines, beforeLicense, afterLicense, license)`
(fixLicense.py lines 115-121), as the file content it produces:
`oldLines[:beforeLicense+1] + license + oldLines[afterLicense:]`. -/
def writeFile (oldLines : List String) (beforeLicense afterLicense : Int)
    (license : List String) : List String :=
  pySliceTo oldLines (beforeLicense + 1) ++ license ++ pySliceFrom oldLines afterLicense

/-- The padding applied to the canonical header before comparison/insertion
(fixLicense.py lines 146-149): a leading blank line iff `insertNewLine` and
the block does not start at the top, a trailing blank line iff
`insertNewLine` and the block does not end at the last line. -/
def padLicense (license : List String) (insertNewLine : Bool) (b e : Nat)
    (total : Nat) : List String :=
  (if insertNewLine ∧ 0 < b then ["\n"] else []) ++ license ++
  (if insertNewLine ∧ (e : Int) < (total : Int) - 1 then ["\n"] else [])

/-- Observable outcome of one `checkFile` run: which message branch was taken
(and, when a block was located, the range that was reported). -/
inductive CheckOutcome
  | noIndicator
  | correct (b e : Nat)
  | replaced (b e : Nat)
  | noValid
deriving DecidableEq

/-- The `while begin < 0 and len(ind) > 0` loop of `checkFile`
(fixLicense.py lines 133-162), returning the resulting file content together
with the branch taken.  The fuel argument is instantiated with the length of
the initial indicator list; every iteration drops at least one indicator, so
the fuel never runs out before the indicator list is empty, and the
fuel-exhausted case coincides with the empty-indicator case (the code after
the loop, lines 159-162). -/
def checkFileLoop (fileLines lineComments : List String)
    (blockComments : List (String × String)) (license : List String)
    (insertNewLine : Bool) : Nat → List String → List String × CheckOutcome
  | fuel, ind =>
    if ind.isEmpty then
      (writeFile fileLines (-1) 0
        (license ++ if insertNewLine then ["\n"] else []), .noValid)
    else
      match fuel with
      | 0 =>
        (writeFile fileLines (-1) 0
          (license ++ if insertNewLine then ["\n"] else []), .noValid)
      | fuel' + 1 =>
        match findLicense fileLines ind with
        | (lineNo, indicator) =>
          if lineNo < 0 then
            (writeFile fileLines (-1) 0
              (license ++ if insertNewLine then ["\n"] else []), .noIndicator)
          else
            match gatherCommentBlock fileLines lineNo.toNat lineComments blockComments with
            | (gb, ge) =>
              if 0 ≤ gb then
                if pySliceRange fileLines gb.toNat (ge.toNat + 1) =
                    padLicense license insertNewLine gb.toNat ge.toNat fileLines.length then
                  (fileLines, .correct gb.toNat ge.toNat)
                else
                  (writeFile fileLines (gb - 1) (ge + 1)
                    (padLicense license insertNewLine gb.toNat ge.toNat fileLines.length),
                   .replaced gb.toNat ge.toNat)
              else
                checkFileLoop fileLines lineComments blockComments license insertNewLine
                  fuel' (ind.drop (indicator.toNat + 1))

/-- `checkFile` (fixLicense.py lines 123-162), as a function from the file
content (and language comment tokens, canonical header, newline option,
indicator list) to the resulting file content and the branch taken. -/
def checkFile (fileLines lineComments : List String)
    (blockComments : List (String × String)) (license : List String)
    (insertNewLine : Bool) (indicators : List String) : List String × CheckOutcome :=
  checkFileLoop fileLines lineComments blockComments license insertNewLine
    indicators.length indicators

/-! ## Helper lemmas about `findLicense` -/

theorem getD_mem (lines : List String) (n : Nat) (h : n < lines.length) :
    lines.getD n "" ∈ lines := by
  rw [List.getD_eq_getElem _ _ h]
  exact List.getElem_mem h

theorem findLineFrom_none_iff (ind : String) (n : Nat) (ls : List String) :
    findLineFrom ind n ls = none ↔ ∀ l ∈ ls, indicatorHits ind l = false := by
  induction ls generalizing n with
  | nil => simp [findLineFrom]
  | cons l ls ih =>
    simp only [findLineFrom]
    by_cases h : indicatorHits ind l
    · simp [h]
    · simp [h, ih]

theorem findLineFrom_shift (ind : String) (n : Nat) (ls : List String) :
    findLineFrom ind n ls = (findLineFrom ind 0 ls).map (· + n) := by
  induction ls generalizing n with
  | nil => simp [findLineFrom]
  | cons l ls ih =>
    simp only [findLineFrom]
    by_cases h : indicatorHits ind l
    · simp [h]
    · rw [if_neg h, if_neg h, ih (n + 1), ih 1, Option.map_map]
      cases findLineFrom ind 0 ls with
      | none => rfl
      | some v => simp [Function.comp]; omega

theorem findLineFrom_zero_some (ind : String) (ls : List String) (m : Nat)
    (h : findLineFrom ind 0 ls = some m) :
    m < ls.length ∧ indicatorHits ind (ls.getD m "") = true ∧
      ∀ k, k < m → indicatorHits ind (ls.getD k "") = false := by
  induction ls generalizing m with
  | nil => simp [findLineFrom] at h
  | cons l ls ih =>
    simp only [findLineFrom] at h
    by_cases hl : indicatorHits ind l
    · rw [if_pos hl] at h
      injection h with h
      subst h
      exact ⟨Nat.succ_pos _, hl, fun k hk => absurd hk (Nat.not_lt_zero k)⟩
    · rw [if_neg hl, findLineFrom_shift] at h
      cases h0 : findLineFrom ind 0 ls with
      | none => rw [h0] at h; simp at h
      | some v =>
        rw [h0] at h
        simp only [Option.map_some'] at h
        injection h with h
        obtain ⟨hv, hhit, hbelow⟩ := ih v h0
        have hm : m = v + 1 := by omega
        subst hm
        refine ⟨by simpa using hv, by simpa using hhit, ?_⟩
        intro k hk
        cases k with
        | zero => simpa using hl
        | succ k' => simpa using hbelow k' (by omega)

theorem findLicenseAux_shape (lines : List String) (k : Nat) (inds : List String) :
    findLicenseAux lines k inds = (-1, -1) ∨
      ∃ n i : Nat, findLicenseAux lines k inds = (Int.ofNat n, Int.ofNat i) := by
  induction inds generalizing k with
  | nil => exact Or.inl rfl
  | cons ind rest ih =>
    simp only [findLicenseAux]
    cases h0 : findLineFrom ind 0 lines with
    | some n => exact Or.inr ⟨n, k, rfl⟩
    | none => exact ih (k + 1)

theorem findLicenseAux_none_iff (lines : List String) (k : Nat) (inds : List String) :
    findLicenseAux lines k inds = (-1, -1) ↔
      ∀ ind ∈ inds, ∀ l ∈ lines, indicatorHits ind l = false := by
  induction inds generalizing k with
  | nil => simp [findLicenseAux]
  | cons ind rest ih =>
    simp only [findLicenseAux]
    cases h0 : findLineFrom ind 0 lines with
    | some n =>
      obtain ⟨hn, hhit, -⟩ := findLineFrom_zero_some ind lines n h0
      constructor
      · intro h
        simp only [Prod.mk.injEq, Int.ofNat_eq_coe] at h
        exfalso
        omega
      · intro h
        have := h ind (by simp) (lines.getD n "") (getD_mem lines n hn)
        rw [this] at hhit
        simp at hhit
    | none =>
      rw [ih (k + 1)]
      have hnone := (findLineFrom_none_iff ind 0 lines).mp h0
      constructor
      · intro h ind' hmem
        rcases List.mem_cons.mp hmem with rfl | hmem'
        · exact hnone
        · exact h ind' hmem'
      · intro h ind' hmem
        exact h ind' (List.mem_cons_of_mem _ hmem)

theorem findLicenseAux_found (lines : List String) (k : Nat) (inds : List String)
    (n i : Nat) (h : findLicenseAux lines k inds = (Int.ofNat n, Int.ofNat i)) :
    k ≤ i ∧ i - k < inds.length ∧ n < lines.length ∧
      indicatorHits (inds.getD (i - k) "") (lines.getD n "") = true ∧
      (∀ j, j < i - k → ∀ l ∈ lines, indicatorHits (inds.getD j "") l = false) ∧
      (∀ m, m < n → indicatorHits (inds.getD (i - k) "") (lines.getD m "") = false) := by
  induction inds generalizing k with
  | nil =>
    simp only [findLicenseAux, Prod.mk.injEq, Int.ofNat_eq_coe] at h
    exfalso
    omega
  | cons ind rest ih =>
    simp only [findLicenseAux] at h
    cases h0 : findLineFrom ind 0 lines with
    | some v =>
      rw [h0] at h
      rw [Prod.mk.injEq] at h
      obtain ⟨h1, h2⟩ := h
      obtain rfl := Int.ofNat.inj h1
      obtain rfl := Int.ofNat.inj h2
      obtain ⟨hv, hhit, hbelow⟩ := findLineFrom_zero_some ind lines _ h0
      refine ⟨Nat.le_refl _, by simp, hv, ?_, ?_, ?_⟩
      · simpa using hhit
      · intro j hj
        exfalso
        omega
      · intro m hm
        simpa using hbelow m hm
    | none =>
      rw [h0] at h
      obtain ⟨hk, hlen, hn, hhit, hbelow, hline⟩ := ih (k + 1) h
      have hik : 1 ≤ i - k := by omega
      refine ⟨by omega, ?_, hn, ?_, ?_, ?_⟩
      · simp only [List.length_cons]; omega
      · have : i - k = (i - (k + 1)) + 1 := by omega
        rw [this, List.getD_cons_succ]
        exact hhit
      · intro j hj
        cases j with
        | zero =>
          intro l hl
          rw [List.getD_cons_zero]
          exact (findLineFrom_none_iff ind 0 lines).mp h0 l hl
        | succ j' =>
          rw [List.getD_cons_succ]
          exact hbelow j' (by omega)
      · intro m hm
        have : i - k = (i - (k + 1)) + 1 := by omega
        rw [this, List.getD_cons_succ]
        exact hline m hm

theorem findLicense_found_line_lt (lines inds : List String)
    (h : 0 ≤ (findLicense lines inds).1) :
    (findLicense lines inds).1.toNat < lines.length := by
  rcases findLicenseAux_shape lines 0 inds with hs | ⟨n, i, hs⟩
  · rw [findLicense, hs] at h
    simp at h
  · have := (findLicenseAux_found lines 0 inds n i hs).2.2.1
    rw [findLicense, hs]
    simpa using this

/-- C5: `findLicense` returns the `(lineNo, indicatorIndex)` of the first
match with indicator order taking priority over line order — indicator 0 is
searched across all lines before indicator 1 is tried at all — and returns
the sentinel `(-1,-1)` exactly when no indicator occurs as a substring of any
lowercased line. -/
theorem c5_findLicense_priority (lines indicators : List String) :
    (findLicense lines indicators = (-1, -1) ↔
      ∀ ind ∈ indicators, ∀ l ∈ lines, indicatorHits ind l = false) ∧
    (∀ n i : Nat, findLicense lines indicators = (Int.ofNat n, Int.ofNat i) →
      i < indicators.length ∧ n < lines.length ∧
      indicatorHits (indicators.getD i "") (lines.getD n "") = true ∧
      (∀ j, j < i → ∀ l ∈ lines, indicatorHits (indicators.getD j "") l = false) ∧
      (∀ m, m < n → indicatorHits (indicators.getD i "") (lines.getD m "") = false)) := by
  constructor
  · exact findLicenseAux_none_iff lines 0 indicators
  · intro n i h
    obtain ⟨-, hlen, hn, hhit, hbelow, hline⟩ :=
      findLicenseAux_found lines 0 indicators n i h
    simp only [Nat.sub_zero] at hlen hhit hbelow hline
    exact ⟨hlen, hn, hhit, hbelow, hline⟩

/-- Witness for C5, on the spec's own example: indicator list
`["license","copyright"]` and a file whose only match is "copyright" on
line 5. -/
theorem c5_findLicense_priority_witness :
    indicatorHits ((["license", "copyright"] : List String).getD 1 "")
        ((["a\n", "b\n", "c\n", "d\n", "e\n", "Copyright 2016\n"] : List String).getD 5 "") = true ∧
    (∀ j, j < 1 → ∀ l ∈ (["a\n", "b\n", "c\n", "d\n", "e\n", "Copyright 2016\n"] : List String),
      indicatorHits ((["license", "copyright"] : List String).getD j "") l = false) := by
  have h := (c5_findLicense_priority ["a\n", "b\n", "c\n", "d\n", "e\n", "Copyright 2016\n"]
    ["license", "copyright"]).2 5 1 (by decide)
  exact ⟨h.2.2.1, h.2.2.2.1⟩

/-! ## Helper lemmas about the pieces of `gatherCommentBlock` -/

theorem walkUp_le (lines : List String) (c : String) : ∀ s, walkUp lines c s ≤ s := by
  intro s
  induction s with
  | zero => simp [walkUp]
  | succ m ih =>
    simp only [walkUp]
    split
    · exact le_trans ih (by omega)
    · exact le_refl _

theorem walkUp_run (lines : List String) (c : String) (a : Nat) :
    ∀ hit, a ≤ hit →
      (∀ i, a ≤ i → i ≤ hit → pyStartsWith (strip (lines.getD i "")) c = true) →
      (a = 0 ∨ pyStartsWith (strip (lines.getD (a - 1) "")) c = false) →
      walkUp lines c hit = a := by
  intro hit
  induction hit with
  | zero =>
    intro ha _ _
    have : a = 0 := by omega
    subst this
    rfl
  | succ m ih =>
    intro ha hrun hbound
    by_cases ham : a = m + 1
    · subst ham
      rcases hbound with h0 | hb
      · exact absurd h0 (Nat.succ_ne_zero m)
      · simp only [walkUp]
        rw [if_neg]
        simp only [Nat.add_sub_cancel] at hb
        rw [hb]
        simp
    · have ham' : a ≤ m := by omega
      simp only [walkUp]
      rw [if_pos (hrun m ham' (by omega))]
      exact ih ham' (fun i hi hi2 => hrun i hi (by omega)) hbound

theorem walkDown_bounds (lines : List String) (c : String) :
    ∀ fuel i, i ≤ walkDown lines c fuel i ∧
      (i < lines.length → walkDown lines c fuel i < lines.length) := by
  intro fuel
  induction fuel with
  | zero => intro i; exact ⟨le_refl _, fun h => h⟩
  | succ f ih =>
    intro i
    simp only [walkDown]
    split
    · rename_i h
      refine ⟨le_trans (by omega) (ih (i + 1)).1, fun _ => (ih (i + 1)).2 (by omega)⟩
    · exact ⟨le_refl _, fun h => h⟩

theorem walkDown_run (lines : List String) (c : String) (b : Nat)
    (hblen : b < lines.length)
    (hbound : b + 1 < lines.length → pyStartsWith (strip (lines.getD (b + 1) "")) c = false) :
    ∀ fuel i, b - i ≤ fuel → i ≤ b →
      (∀ k, i ≤ k → k ≤ b → pyStartsWith (strip (lines.getD k "")) c = true) →
      walkDown lines c fuel i = b := by
  intro fuel
  induction fuel with
  | zero =>
    intro i hfu hib _
    have : i = b := by omega
    subst this
    rfl
  | succ f ih =>
    intro i hfu hib hrun
    by_cases hib' : i = b
    · subst hib'
      have hcond : ¬(i < lines.length - 1 ∧ pyStartsWith (strip (lines.getD (i + 1) "")) c = true) := by
        rintro ⟨h1, h2⟩
        rw [hbound (by omega)] at h2
        exact absurd h2 (by simp)
      simp only [walkDown]
      rw [if_neg hcond]
    · have hib2 : i < b := by omega
      simp only [walkDown]
      rw [if_pos ⟨by omega, hrun (i + 1) (by omega) (by omega)⟩]
      exact ih (i + 1) (by omega) (by omega) (fun k hk1 hk2 => hrun k (by omega) hk2)

theorem scanUp_found_lt (lines : List String) (bc : List (String × String)) :
    ∀ n i e, scanUp lines bc n = .found i e → i < n := by
  intro n
  induction n with
  | zero => intro i e h; simp [scanUp] at h
  | succ m ih =>
    intro i e h
    simp only [scanUp] at h
    cases hp : scanPairs (strip (lines.getD m "")) bc with
    | found e' =>
      rw [hp] at h
      cases h
      omega
    | closerHit => rw [hp] at h; simp at h
    | nothing =>
      rw [hp] at h
      exact lt_trans (ih i e h) (by omega)

theorem scanUp_found_run (lines : List String) (bc : List (String × String)) (j : Nat) (e : String)
    (hj : scanPairs (strip (lines.getD j "")) bc = .found e) :
    ∀ n, j < n →
      (∀ i, i < n → j < i → scanPairs (strip (lines.getD i "")) bc = .nothing) →
      scanUp lines bc n = .found j e := by
  intro n
  induction n with
  | zero => intro h _; exact absurd h (Nat.not_lt_zero j)
  | succ m ih =>
    intro hjm hmid
    simp only [scanUp]
    by_cases hjm' : j = m
    · subst hjm'
      rw [hj]
    · have hlt : j < m := by omega
      rw [hmid m (by omega) hlt]
      exact ih hlt (fun i h1 h2 => hmid i (by omega) h2)

theorem scanUp_closer_failed (lines : List String) (bc : List (String × String)) (j : Nat)
    (hc : scanPairs (strip (lines.getD j "")) bc = .closerHit) :
    ∀ n, j < n →
      (∀ i, i < n → j < i → scanPairs (strip (lines.getD i "")) bc = .closerHit ∨
        scanPairs (strip (lines.getD i "")) bc = .nothing) →
      scanUp lines bc n = .failed := by
  intro n
  induction n with
  | zero => intro h _; exact absurd h (Nat.not_lt_zero j)
  | succ m ih =>
    intro hjm hmid
    simp only [scanUp]
    by_cases hjm' : j = m
    · subst hjm'
      rw [hc]
    · have hlt : j < m := by omega
      rcases hmid m (by omega) hlt with h | h
      · rw [h]
      · rw [h]
        exact ih hlt (fun i h1 h2 => hmid i (by omega) h2)

theorem scanUp_no_opener (lines : List String) (bc : List (String × String)) :
    ∀ n, (∀ i, i < n → scanPairs (strip (lines.getD i "")) bc = .closerHit ∨
        scanPairs (strip (lines.getD i "")) bc = .nothing) →
      scanUp lines bc n = .failed ∨ scanUp lines bc n = .top := by
  intro n
  induction n with
  | zero => intro _; exact Or.inr rfl
  | succ m ih =>
    intro hall
    simp only [scanUp]
    rcases hall m (by omega) with h | h
    · rw [h]
      exact Or.inl rfl
    · rw [h]
      exact ih (fun i h1 => hall i (by omega))

theorem scanPairs_single (l b e : String) :
    scanPairs l [(b, e)] =
      if pyStartsWith l b then .found e
      else if pyEndsWith l e then .closerHit
      else .nothing := rfl

theorem scanDown_none (lines : List String) (e : String) (start : Nat)
    (hafter : ∀ k, k < lines.length → start < k →
      pyEndsWith (strip (lines.getD k "")) e = false) :
    ∀ fuel i, start < i → scanDown lines e start fuel i = start := by
  intro fuel
  induction fuel with
  | zero => intro i _; rfl
  | succ f ih =>
    intro i hi
    simp only [scanDown]
    split
    · rename_i hlen
      rw [if_neg (by rw [hafter i hlen hi]; simp)]
      exact ih (i + 1) (by omega)
    · rfl

theorem scanDown_bounds (lines : List String) (e : String) (start : Nat) :
    ∀ fuel i, start < i →
      scanDown lines e start fuel i = start ∨
        (start < scanDown lines e start fuel i ∧
          scanDown lines e start fuel i < lines.length) := by
  intro fuel
  induction fuel with
  | zero => intro i _; exact Or.inl rfl
  | succ f ih =>
    intro i hi
    simp only [scanDown]
    split
    · rename_i hlen
      split
      · exact Or.inr ⟨hi, hlen⟩
      · exact ih (i + 1) (by omega)
    · exact Or.inl rfl

theorem grabEmptyBeforeAux_le (lines : List String) (b0 : Nat) :
    ∀ k, k ≤ b0 → grabEmptyBeforeAux lines b0 k ≤ b0 := by
  intro k
  induction k with
  | zero => intro _; exact le_refl _
  | succ m ih =>
    intro hm
    simp only [grabEmptyBeforeAux]
    split
    · omega
    · exact ih (by omega)

theorem grabEmptyBeforeAux_all_blank (lines : List String) (b0 : Nat) :
    ∀ k, (∀ i, i < k → (strip (lines.getD i "")).length = 0) →
      grabEmptyBeforeAux lines b0 k = b0 := by
  intro k
  induction k with
  | zero => intro _; rfl
  | succ m ih =>
    intro hall
    simp only [grabEmptyBeforeAux]
    rw [if_neg (by have := hall m (by omega); omega)]
    exact ih (fun i h => hall i (by omega))

theorem grabEmptyBeforeAux_stop (lines : List String) (b0 i0 : Nat)
    (hnb : 0 < (strip (lines.getD i0 "")).length) :
    ∀ k, i0 < k → (∀ i, i < k → i0 < i → (strip (lines.getD i "")).length = 0) →
      grabEmptyBeforeAux lines b0 k = i0 + 1 := by
  intro k
  induction k with
  | zero => intro h _; exact absurd h (Nat.not_lt_zero i0)
  | succ m ih =>
    intro hk hblank
    simp only [grabEmptyBeforeAux]
    by_cases him : i0 = m
    · subst him
      rw [if_pos hnb]
    · have h2 : i0 < m := by omega
      rw [if_neg (by have := hblank m (by omega) h2; omega)]
      exact ih h2 (fun i h1 h3 => hblank i (by omega) h3)

theorem grabEmptyAfterAux_ge (lines : List String) (e0 : Nat) :
    ∀ fuel i, e0 < i → e0 ≤ grabEmptyAfterAux lines e0 fuel i := by
  intro fuel
  induction fuel with
  | zero => intro i _; exact le_refl _
  | succ f ih =>
    intro i hi
    simp only [grabEmptyAfterAux]
    split
    · split
      · omega
      · exact ih (i + 1) (by omega)
    · exact le_refl _

theorem grabEmptyAfterAux_lt (lines : List String) (e0 : Nat) (hlen : e0 < lines.length) :
    ∀ fuel i, e0 < i → grabEmptyAfterAux lines e0 fuel i < lines.length := by
  intro fuel
  induction fuel with
  | zero => intro i _; exact hlen
  | succ f ih =>
    intro i hi
    simp only [grabEmptyAfterAux]
    split
    · rename_i h1
      split
      · omega
      · exact ih (i + 1) (by omega)
    · exact hlen

theorem grabEmptyAfterAux_all_blank (lines : List String) (e0 : Nat) :
    ∀ fuel i, (∀ k, k < lines.length → i ≤ k → (strip (lines.getD k "")).length = 0) →
      grabEmptyAfterAux lines e0 fuel i = e0 := by
  intro fuel
  induction fuel with
  | zero => intro i _; rfl
  | succ f ih =>
    intro i hall
    simp only [grabEmptyAfterAux]
    split
    · rename_i h1
      rw [if_neg (by have := hall i h1 (le_refl _); omega)]
      exact ih (i + 1) (fun k hk1 hk2 => hall k hk1 (by omega))
    · rfl

theorem grabEmptyAfterAux_stop (lines : List String) (e0 i0 : Nat)
    (hi0 : i0 < lines.length) (hnb : 0 < (strip (lines.getD i0 "")).length) :
    ∀ fuel i, i ≤ i0 → lines.length ≤ fuel + i →
      (∀ k, k < i0 → i ≤ k → (strip (lines.getD k "")).length = 0) →
      grabEmptyAfterAux lines e0 fuel i = i0 - 1 := by
  intro fuel
  induction fuel with
  | zero =>
    intro i h1 h2 _
    exfalso
    omega
  | succ f ih =>
    intro i h1 h2 hblank
    simp only [grabEmptyAfterAux]
    rw [if_pos (by omega : i < lines.length)]
    by_cases hii : i = i0
    · subst hii
      rw [if_pos hnb]
    · have h3 : i < i0 := by omega
      rw [if_neg (by have := hblank i h3 (le_refl _); omega)]
      exact ih (i + 1) (by omega) (by omega) (fun k hk1 hk2 => hblank k hk1 (by omega))

/-- Shared bounds lemma: on an in-range hit line, `gatherCommentBlock` returns
either the sentinel or a well-formed range. -/
theorem gather_valid (lines : List String) (start : Nat) (lineComments : List String)
    (blockComments : List (String × String)) (hstart : start < lines.length) :
    gatherCommentBlock lines start lineComments blockComments = (-1, -1) ∨
      (0 ≤ (gatherCommentBlock lines start lineComments blockComments).1 ∧
       (gatherCommentBlock lines start lineComments blockComments).1 ≤
         (gatherCommentBlock lines start lineComments blockComments).2 ∧
       (gatherCommentBlock lines start lineComments blockComments).2 ≤
         (lines.length : Int) - 1) := by
  unfold gatherCommentBlock
  cases hc : chooseLineCmt (strip (lines.getD start "")) lineComments with
  | some c =>
    right
    have hwu : walkUp lines c start ≤ start := walkUp_le lines c start
    have hwd1 : start ≤ walkDown lines c lines.length start :=
      (walkDown_bounds lines c lines.length start).1
    have hwd2 : walkDown lines c lines.length start < lines.length :=
      (walkDown_bounds lines c lines.length start).2 hstart
    have hgb : grabEmptyBefore lines (walkUp lines c start) ≤ walkUp lines c start :=
      grabEmptyBeforeAux_le lines _ _ (le_refl _)
    have hge : walkDown lines c lines.length start ≤
        grabEmptyAfter lines (walkDown lines c lines.length start) :=
      grabEmptyAfterAux_ge lines _ lines.length _ (by omega)
    have hlt : grabEmptyAfter lines (walkDown lines c lines.length start) < lines.length :=
      grabEmptyAfterAux_lt lines _ hwd2 lines.length _ (by omega)
    simp only [Int.ofNat_eq_coe]
    refine ⟨by positivity, ?_, ?_⟩
    · rw [grabEmptyBefore, grabEmptyAfter] at *
      omega
    · rw [grabEmptyAfter] at *
      omega
  | none =>
    cases hs : scanUp lines blockComments start with
    | failed => exact Or.inl rfl
    | top => exact Or.inl rfl
    | found i e =>
      right
      have hi : i < start := scanUp_found_lt lines blockComments start i e hs
      have hsd := scanDown_bounds lines e start lines.length (start + 1) (by omega)
      have hgb : grabEmptyBefore lines i ≤ i :=
        grabEmptyBeforeAux_le lines _ _ (le_refl _)
      have hsd2 : start ≤ scanDown lines e start lines.length (start + 1) ∧
          scanDown lines e start lines.length (start + 1) < lines.length := by
        rcases hsd with h | ⟨h1, h2⟩
        · rw [h]; exact ⟨le_refl _, hstart⟩
        · exact ⟨by omega, h2⟩
      have hge : scanDown lines e start lines.length (start + 1) ≤
          grabEmptyAfter lines (scanDown lines e start lines.length (start + 1)) :=
        grabEmptyAfterAux_ge lines _ lines.length _ (by omega)
      have hlt : grabEmptyAfter lines (scanDown lines e start lines.length (start + 1)) <
          lines.length :=
        grabEmptyAfterAux_lt lines _ hsd2.2 lines.length _ (by omega)
      simp only [Int.ofNat_eq_coe]
      refine ⟨by positivity, ?_, ?_⟩
      · rw [grabEmptyBefore, grabEmptyAfter] at *
        omega
      · rw [grabEmptyAfter] at *
        omega

/-! ## Claims about `gatherCommentBlock` -/

/-- C1 counterexample: a run of one `//`-line with a non-matching (blank)
line immediately before it and a non-matching line immediately after it.
The claim demands the exact run `(2, 2)`, but the blank-line absorption step
extends the range over the blank boundary line, returning `(1, 2)`. -/
theorem c1_lineRun_blank_boundary_cex :
    pyStartsWith (strip ((["int x;\n", "\n", "// license\n", "int y;\n"] : List String).getD 2 ""))
      "//" = true ∧
    pyStartsWith (strip ((["int x;\n", "\n", "// license\n", "int y;\n"] : List String).getD 1 ""))
      "//" = false ∧
    pyStartsWith (strip ((["int x;\n", "\n", "// license\n", "int y;\n"] : List String).getD 3 ""))
      "//" = false ∧
    gatherCommentBlock ["int x;\n", "\n", "// license\n", "int y;\n"] 2 ["//"] [("/*", "*/")]
      = (1, 2) := by
  decide

/-- C1 (amended): for a run of lines `[a,b]` whose stripped text starts with
the prefix the function selects for the hit line, with non-matching and
additionally NON-BLANK lines immediately before and after the run,
`gatherCommentBlock` returns exactly `(a, b)` regardless of which line in
the run was the hit.  (The non-blank requirement is forced by the blank-line
absorption step, see the counterexample.) -/
theorem c1_lineRun_exact_range_amended
    (lines lineComments : List String) (blockComments : List (String × String))
    (c : String) (a b hit : Nat)
    (hchoose : chooseLineCmt (strip (lines.getD hit "")) lineComments = some c)
    (hah : a ≤ hit) (hhb : hit ≤ b) (hblen : b + 1 < lines.length) (ha0 : 0 < a)
    (hrun : ∀ i, i ≤ b → a ≤ i → pyStartsWith (strip (lines.getD i "")) c = true)
    (hprev : pyStartsWith (strip (lines.getD (a - 1) "")) c = false)
    (hprevnb : 0 < (strip (lines.getD (a - 1) "")).length)
    (hnext : pyStartsWith (strip (lines.getD (b + 1) "")) c = false)
    (hnextnb : 0 < (strip (lines.getD (b + 1) "")).length) :
    gatherCommentBlock lines hit lineComments blockComments = ((a : Int), (b : Int)) := by
  have hwu : walkUp lines c hit = a :=
    walkUp_run lines c a hit hah (fun i h1 h2 => hrun i (by omega) h1) (Or.inr hprev)
  have hwd : walkDown lines c lines.length hit = b :=
    walkDown_run lines c b (by omega) (fun _ => hnext) lines.length hit (by omega) hhb
      (fun k hk1 hk2 => hrun k hk2 (by omega))
  have hgb : grabEmptyBefore lines a = a := by
    rw [grabEmptyBefore]
    obtain ⟨a', rfl⟩ : ∃ a', a = a' + 1 := ⟨a - 1, by omega⟩
    simp only [Nat.add_sub_cancel] at hprevnb
    simp only [grabEmptyBeforeAux]
    rw [if_pos hprevnb]
  have hga : grabEmptyAfter lines b = b := by
    rw [grabEmptyAfter]
    obtain ⟨fl, hfl⟩ : ∃ fl, lines.length = fl + 1 := ⟨lines.length - 1, by omega⟩
    rw [hfl]
    simp only [grabEmptyAfterAux]
    rw [if_pos (by omega : b + 1 < lines.length), if_pos hnextnb]
    omega
  simp only [gatherCommentBlock, hchoose, hwu, hwd, hgb, hga, Int.ofNat_eq_coe]

/-- Witness for the amended C1: a three-line `//` run with non-blank
non-matching boundary lines, hit in the middle. -/
theorem c1_lineRun_exact_range_amended_witness :
    gatherCommentBlock ["x;\n", "// A\n", "// B\n", "// C\n", "y;\n"] 2 ["//"] [("/*", "*/")]
      = (1, 3) :=
  c1_lineRun_exact_range_amended ["x;\n", "// A\n", "// B\n", "// C\n", "y;\n"] ["//"]
    [("/*", "*/")] "//" 1 3 2 (by decide) (by decide) (by decide) (by decide) (by decide)
    (by decide) (by decide) (by decide) (by decide) (by decide)

/-- C2: on a hit line classified as block-comment, if a line whose stripped
text ends with the close delimiter appears above the hit with no opener
between it and the hit, or if no opener appears above the hit at all,
`gatherCommentBlock` returns the not-found sentinel `(-1, -1)`. -/
theorem c2_blockScan_notFound
    (lines lineComments : List String) (hit : Nat) (b e : String)
    (hchoose : chooseLineCmt (strip (lines.getD hit "")) lineComments = none)
    (hcase :
      (∃ j, j < hit ∧ pyEndsWith (strip (lines.getD j "")) e = true ∧
        (∀ i, i < hit → j ≤ i → pyStartsWith (strip (lines.getD i "")) b = false)) ∨
      (∀ i, i < hit → pyStartsWith (strip (lines.getD i "")) b = false)) :
    gatherCommentBlock lines hit lineComments [(b, e)] = (-1, -1) := by
  have hscan : scanUp lines [(b, e)] hit = .failed ∨ scanUp lines [(b, e)] hit = .top := by
    rcases hcase with ⟨j, hj, hje, hnos⟩ | hall
    · left
      have hcj : scanPairs (strip (lines.getD j "")) [(b, e)] = .closerHit := by
        rw [scanPairs_single, if_neg (by rw [hnos j hj (le_refl j)]; simp), if_pos hje]
      refine scanUp_closer_failed lines [(b, e)] j hcj hit hj ?_
      intro i h1 h2
      rw [scanPairs_single, if_neg (by rw [hnos i h1 (by omega)]; simp)]
      by_cases hpe : pyEndsWith (strip (lines.getD i "")) e = true
      · rw [if_pos hpe]
        exact Or.inl rfl
      · rw [if_neg hpe]
        exact Or.inr rfl
    · refine scanUp_no_opener lines [(b, e)] hit ?_
      intro i h1
      rw [scanPairs_single, if_neg (by rw [hall i h1]; simp)]
      by_cases hpe : pyEndsWith (strip (lines.getD i "")) e = true
      · rw [if_pos hpe]
        exact Or.inl rfl
      · rw [if_neg hpe]
        exact Or.inr rfl
  rcases hscan with h | h
  · simp only [gatherCommentBlock, hchoose, h]
  · simp only [gatherCommentBlock, hchoose, h]

/-- Witness for C2: an unrelated line ending in the close delimiter above the
hit line, no opener anywhere above. -/
theorem c2_blockScan_notFound_witness :
    gatherCommentBlock ["x */\n", "copyright\n"] 1 ["//"] [("/*", "*/")] = (-1, -1) := by
  refine c2_blockScan_notFound ["x */\n", "copyright\n"] ["//"] 1 "/*" "*/" (by decide) ?_
  exact Or.inl ⟨0, by decide, by decide, by decide⟩

/-- C3 counterexample: the hit line `"# copyright"` forms the raw range
`(1, 1)` and the only line above it is blank, so the claim demands that the
returned begin be extended to 0; but the absorption loop moves the boundary
only when it finds a non-blank line, so the blank padding that reaches the
top of the file is NOT swallowed and the function returns `(1, 1)`. -/
theorem c3_blankAbsorption_cex :
    gatherCommentBlock ["\n", "# copyright\n"] 1 ["#"] [] = (1, 1) ∧
    (strip ((["\n", "# copyright\n"] : List String).getD 0 "")).length = 0 := by
  decide

/-- C3 (amended): the blank-line absorption step of `gatherCommentBlock`
(its `grabEmptyBefore`/`grabEmptyAfter` loops, fixLicense.py lines 104-113)
extends the raw begin backward to one past the nearest non-blank line above
when such a line exists, and leaves it unchanged when every line above is
blank; symmetrically for the raw end.  (The claim's "including when only
blank lines remain between the block and the file boundary" fails: at the
file boundary the raw boundary is kept, see the counterexample.) -/
theorem c3_blankAbsorption_amended (lines : List String) (b1 b2 e1 e2 i0 i1 : Nat) :
    ((∀ i, i < b1 → (strip (lines.getD i "")).length = 0) →
      grabEmptyBefore lines b1 = b1) ∧
    (i0 < b2 → 0 < (strip (lines.getD i0 "")).length →
      (∀ i, i < b2 → i0 < i → (strip (lines.getD i "")).length = 0) →
      grabEmptyBefore lines b2 = i0 + 1) ∧
    ((∀ i, i < lines.length → e1 < i → (strip (lines.getD i "")).length = 0) →
      grabEmptyAfter lines e1 = e1) ∧
    (e2 < i1 → i1 < lines.length → 0 < (strip (lines.getD i1 "")).length →
      (∀ i, i < i1 → e2 < i → (strip (lines.getD i "")).length = 0) →
      grabEmptyAfter lines e2 = i1 - 1) := by
  refine ⟨?_, ?_, ?_, ?_⟩
  · intro h
    exact grabEmptyBeforeAux_all_blank lines b1 b1 h
  · intro h1 h2 h3
    exact grabEmptyBeforeAux_stop lines b2 i0 h2 b2 h1 h3
  · intro h
    exact grabEmptyAfterAux_all_blank lines e1 lines.length (e1 + 1)
      (fun k hk1 hk2 => h k hk1 (by omega))
  · intro h1 h2 h3 h4
    exact grabEmptyAfterAux_stop lines e2 i1 h2 h3 lines.length (e2 + 1) (by omega) (by omega)
      (fun k hk1 hk2 => h4 k hk1 (by omega))

/-- Witness for the amended C3, on a buffer with blank padding in all four
relevant positions. -/
theorem c3_blankAbsorption_amended_witness :
    grabEmptyBefore ["\n", "x\n", "\n", "\n", "y\n", "\n"] 1 = 1 ∧
    grabEmptyBefore ["\n", "x\n", "\n", "\n", "y\n", "\n"] 4 = 2 ∧
    grabEmptyAfter ["\n", "x\n", "\n", "\n", "y\n", "\n"] 4 = 4 ∧
    grabEmptyAfter ["\n", "x\n", "\n", "\n", "y\n", "\n"] 1 = 3 := by
  have h := c3_blankAbsorption_amended ["\n", "x\n", "\n", "\n", "y\n", "\n"] 1 4 4 1 1 4
  exact ⟨h.1 (by decide), h.2.1 (by decide) (by decide) (by decide),
    h.2.2.1 (by decide), h.2.2.2 (by decide) (by decide) (by decide) (by decide)⟩

/-- C8: whenever `gatherCommentBlock` (with an in-range hit line) returns a
value other than the sentinel `(-1, -1)`, the returned pair satisfies
`0 ≤ begin ≤ end ≤ len(lines) - 1`; the blank-line absorption never inverts
or un-bounds the range. -/
theorem c8_range_invariant
    (lines lineComments : List String) (blockComments : List (String × String))
    (start : Nat) (p : Int × Int)
    (hstart : start < lines.length)
    (hg : gatherCommentBlock lines start lineComments blockComments = p)
    (hne : p ≠ (-1, -1)) :
    0 ≤ p.1 ∧ p.1 ≤ p.2 ∧ p.2 ≤ (lines.length : Int) - 1 := by
  rcases gather_valid lines start lineComments blockComments hstart with h | h
  · rw [hg] at h
    exact absurd h hne
  · rw [hg] at h
    exact h

/-- Witness for C8: a one-line `//` comment returning the range `(0, 0)`. -/
theorem c8_range_invariant_witness :
    0 ≤ ((0, 0) : Int × Int).1 ∧ ((0, 0) : Int × Int).1 ≤ ((0, 0) : Int × Int).2 ∧
      ((0, 0) : Int × Int).2 ≤ (((["// a\n"] : List String).length : Nat) : Int) - 1 :=
  c8_range_invariant ["// a\n"] ["//"] [] 0 (0, 0) (by decide) (by decide) (by decide)

/-- C9: for every in-range hit line, `gatherCommentBlock` terminates with
either the sentinel `(-1, -1)` or a valid in-bounds range — in particular it
does not crash on a blank hit line or on a one-line buffer. -/
theorem c9_gather_total_safe
    (lines lineComments : List String) (blockComments : List (String × String))
    (start : Nat) (hstart : start < lines.length) :
    gatherCommentBlock lines start lineComments blockComments = (-1, -1) ∨
      (0 ≤ (gatherCommentBlock lines start lineComments blockComments).1 ∧
       (gatherCommentBlock lines start lineComments blockComments).1 ≤
         (gatherCommentBlock lines start lineComments blockComments).2 ∧
       (gatherCommentBlock lines start lineComments blockComments).2 ≤
         (lines.length : Int) - 1) :=
  gather_valid lines start lineComments blockComments hstart

/-- Witness for C9: the buffer consisting of a single blank line (covering
both the blank hit line and the one-line-file edge cases at once). -/
theorem c9_gather_total_safe_witness :
    gatherCommentBlock ["\n"] 0 ["#"] [("\"\"\"", "\"\"\"")] = (-1, -1) ∨
      (0 ≤ (gatherCommentBlock ["\n"] 0 ["#"] [("\"\"\"", "\"\"\"")]).1 ∧
       (gatherCommentBlock ["\n"] 0 ["#"] [("\"\"\"", "\"\"\"")]).1 ≤
         (gatherCommentBlock ["\n"] 0 ["#"] [("\"\"\"", "\"\"\"")]).2 ∧
       (gatherCommentBlock ["\n"] 0 ["#"] [("\"\"\"", "\"\"\"")]).2 ≤
         (((["\n"] : List String).length : Nat) : Int) - 1) :=
  c9_gather_total_safe ["\n"] ["#"] [("\"\"\"", "\"\"\"")] 0 (by decide)

/-- C10: block-comment hit with an opener found above but no closer below:
`gatherCommentBlock` does not return the sentinel; the raw end stays at the
hit line itself, so the returned range is the blank-absorbed `(opener, hit)`
rather than an error or a range extending to the end of the file. -/
theorem c10_unterminated_block
    (lines lineComments : List String) (hit j : Nat) (b e : String)
    (hchoose : chooseLineCmt (strip (lines.getD hit "")) lineComments = none)
    (hj : j < hit)
    (hopen : pyStartsWith (strip (lines.getD j "")) b = true)
    (hmid : ∀ i, i < hit → j < i →
      pyStartsWith (strip (lines.getD i "")) b = false ∧
      pyEndsWith (strip (lines.getD i "")) e = false)
    (hbelow : ∀ i, i < lines.length → hit < i →
      pyEndsWith (strip (lines.getD i "")) e = false) :
    gatherCommentBlock lines hit lineComments [(b, e)] =
      (Int.ofNat (grabEmptyBefore lines j), Int.ofNat (grabEmptyAfter lines hit)) ∧
    gatherCommentBlock lines hit lineComments [(b, e)] ≠ (-1, -1) := by
  have hfound : scanUp lines [(b, e)] hit = .found j e := by
    refine scanUp_found_run lines [(b, e)] j e ?_ hit hj ?_
    · rw [scanPairs_single, if_pos hopen]
    · intro i h1 h2
      rw [scanPairs_single, if_neg (by rw [(hmid i h1 h2).1]; simp),
        if_neg (by rw [(hmid i h1 h2).2]; simp)]
  have hsd : scanDown lines e hit lines.length (hit + 1) = hit :=
    scanDown_none lines e hit hbelow lines.length (hit + 1) (by omega)
  constructor
  · simp only [gatherCommentBlock, hchoose, hfound, hsd]
  · simp only [gatherCommentBlock, hchoose, hfound, hsd]
    intro hcontra
    rw [Prod.mk.injEq] at hcontra
    simp only [Int.ofNat_eq_coe] at hcontra
    omega

/-- Witness for C10: `/*` opener above the hit, no `*/` anywhere below. -/
theorem c10_unterminated_block_witness :
    gatherCommentBlock ["/*\n", "copyright\n", "text\n"] 1 ["//"] [("/*", "*/")] =
      (Int.ofNat (grabEmptyBefore ["/*\n", "copyright\n", "text\n"] 0),
       Int.ofNat (grabEmptyAfter ["/*\n", "copyright\n", "text\n"] 1)) ∧
    gatherCommentBlock ["/*\n", "copyright\n", "text\n"] 1 ["//"] [("/*", "*/")] ≠ (-1, -1) :=
  c10_unterminated_block ["/*\n", "copyright\n", "text\n"] ["//"] 1 0 "/*" "*/"
    (by decide) (by decide) (by decide) (by decide) (by decide)

/-! ## Helper lemmas about `checkFile` -/

theorem pySliceTo_nonneg (xs : List String) (n : Int) (h : 0 ≤ n) :
    pySliceTo xs n = xs.take n.toNat := by
  simp [pySliceTo, h]

theorem pySliceFrom_nonneg (xs : List String) (n : Int) (h : 0 ≤ n) :
    pySliceFrom xs n = xs.drop n.toNat := by
  simp [pySliceFrom, h]

theorem writeFile_top (oldLines license : List String) :
    writeFile oldLines (-1) 0 license = license ++ oldLines := by
  simp [writeFile, pySliceTo, pySliceFrom]

theorem gather_valid_pair (lines lineComments : List String)
    (blockComments : List (String × String)) (start : Nat) (gb ge : Int)
    (hstart : start < lines.length)
    (hg : gatherCommentBlock lines start lineComments blockComments = (gb, ge)) :
    (gb = -1 ∧ ge = -1) ∨ (0 ≤ gb ∧ gb ≤ ge ∧ ge ≤ (lines.length : Int) - 1) := by
  rcases gather_valid lines start lineComments blockComments hstart with h | h
  · rw [hg, Prod.mk.injEq] at h
    exact Or.inl h
  · rw [hg] at h
    exact Or.inr h

theorem checkFileLoop_correct_eq (fileLines lineComments : List String)
    (blockComments : List (String × String)) (license : List String) (insertNewLine : Bool) :
    ∀ fuel ind out b e,
      checkFileLoop fileLines lineComments blockComments license insertNewLine fuel ind
        = (out, .correct b e) → out = fileLines := by
  intro fuel
  induction fuel with
  | zero =>
    intro ind out b e h
    simp only [checkFileLoop] at h
    split at h
    · simp at h
    · simp at h
  | succ f ih =>
    intro ind out b e h
    simp only [checkFileLoop] at h
    split at h
    · simp at h
    · split at h
      · simp at h
      · split at h
        · split at h
          · rw [Prod.mk.injEq] at h
            exact h.1.symm
          · simp at h
        · exact ih _ _ _ _ h

theorem checkFileLoop_insert_eq (fileLines lineComments : List String)
    (blockComments : List (String × String)) (license : List String) (insertNewLine : Bool) :
    ∀ fuel ind out oc,
      checkFileLoop fileLines lineComments blockComments license insertNewLine fuel ind
        = (out, oc) → (oc = .noIndicator ∨ oc = .noValid) →
      out = license ++ (if insertNewLine then ["\n"] else []) ++ fileLines := by
  intro fuel
  induction fuel with
  | zero =>
    intro ind out oc h hoc
    simp only [checkFileLoop] at h
    split at h
    · rw [writeFile_top, Prod.mk.injEq] at h
      rw [← h.1, List.append_assoc]
    · rw [writeFile_top, Prod.mk.injEq] at h
      rw [← h.1, List.append_assoc]
  | succ f ih =>
    intro ind out oc h hoc
    simp only [checkFileLoop] at h
    split at h
    · rw [writeFile_top, Prod.mk.injEq] at h
      rw [← h.1, List.append_assoc]
    · split at h
      · rw [writeFile_top, Prod.mk.injEq] at h
        rw [← h.1, List.append_assoc]
      · split at h
        · split at h
          · rw [Prod.mk.injEq] at h
            rcases hoc with hoc | hoc <;> rw [← h.2] at hoc <;> simp at hoc
          · rw [Prod.mk.injEq] at h
            rcases hoc with hoc | hoc <;> rw [← h.2] at hoc <;> simp at hoc
        · exact ih _ _ _ h hoc

theorem checkFileLoop_replaced_eq (fileLines lineComments : List String)
    (blockComments : List (String × String)) (license : List String) (insertNewLine : Bool) :
    ∀ fuel ind out b e,
      checkFileLoop fileLines lineComments blockComments license insertNewLine fuel ind
        = (out, .replaced b e) →
      b ≤ e ∧ e < fileLines.length ∧
        out = fileLines.take b ++ padLicense license insertNewLine b e fileLines.length
          ++ fileLines.drop (e + 1) := by
  intro fuel
  induction fuel with
  | zero =>
    intro ind out b e h
    simp only [checkFileLoop] at h
    split at h
    · simp at h
    · simp at h
  | succ f ih =>
    intro ind out b e h
    simp only [checkFileLoop] at h
    split at h
    · simp at h
    · split at h
      · simp at h
      · rename_i hne hlt
        split at h
        · rename_i hgb
          split at h
          · simp at h
          · rw [Prod.mk.injEq] at h
            obtain ⟨hout, hoc⟩ := h
            injection hoc with hb he
            have h0 : (0 : Int) ≤ (findLicense fileLines ind).1 := by omega
            have hstart := findLicense_found_line_lt fileLines ind h0
            have hvalid := gather_valid_pair fileLines lineComments blockComments
              ((findLicense fileLines ind).1.toNat)
              (gatherCommentBlock fileLines (findLicense fileLines ind).1.toNat
                lineComments blockComments).1
              (gatherCommentBlock fileLines (findLicense fileLines ind).1.toNat
                lineComments blockComments).2
              hstart rfl
            rcases hvalid with ⟨hgm, -⟩ | ⟨h1, h2, h3⟩
            · exfalso
              omega
            · subst hb
              subst he
              refine ⟨by omega, by omega, ?_⟩
              rw [← hout, writeFile]
              have hg1 : (gatherCommentBlock fileLines (findLicense fileLines ind).1.toNat
                  lineComments blockComments).1 - 1 + 1 =
                  (gatherCommentBlock fileLines (findLicense fileLines ind).1.toNat
                  lineComments blockComments).1 := by ring
              rw [hg1, pySliceTo_nonneg _ _ hgb, pySliceFrom_nonneg _ _ (by omega)]
              have hg2 : ((gatherCommentBlock fileLines (findLicense fileLines ind).1.toNat
                  lineComments blockComments).2 + 1).toNat =
                  (gatherCommentBlock fileLines (findLicense fileLines ind).1.toNat
                  lineComments blockComments).2.toNat + 1 := by omega
              rw [hg2]
        · exact ih _ _ _ _ h

/-! ## Claims about `checkFile` -/

/-- C4 counterexample: on a file with no indicator match and a canonical
header that itself contains no indicator, each run prepends the header again:
the second run does not take the "License header correct." branch and its
output differs from the first run's output. -/
theorem c4_idempotence_cex :
    checkFile ["x\n"] ["#"] [] ["hello\n"] false ["license"]
      = (["hello\n", "x\n"], .noIndicator) ∧
    checkFile ["hello\n", "x\n"] ["#"] [] ["hello\n"] false ["license"]
      = (["hello\n", "hello\n", "x\n"], .noIndicator) ∧
    (["hello\n", "hello\n", "x\n"] : List String) ≠ ["hello\n", "x\n"] := by
  decide

/-- C4 (amended): `checkFile` is idempotent whenever a run takes the
"License header correct." branch: such a run performs no write (its output
equals its input), and running again with the same arguments takes the
correct branch again with identical content.  (Unrestricted double-run
idempotence fails, see the counterexample.) -/
theorem c4_idempotent_when_correct
    (fileLines lineComments : List String) (blockComments : List (String × String))
    (license : List String) (insertNewLine : Bool) (indicators : List String)
    (out : List String) (b e : Nat)
    (h : checkFile fileLines lineComments blockComments license insertNewLine indicators
      = (out, .correct b e)) :
    out = fileLines ∧
      checkFile out lineComments blockComments license insertNewLine indicators
        = (out, .correct b e) := by
  have hout : out = fileLines :=
    checkFileLoop_correct_eq fileLines lineComments blockComments license insertNewLine
      indicators.length indicators out b e h
  subst hout
  exact ⟨rfl, h⟩

/-- Witness for the amended C4: a file that is exactly the canonical header. -/
theorem c4_idempotent_when_correct_witness :
    (["// copyright\n"] : List String) = ["// copyright\n"] ∧
      checkFile ["// copyright\n"] ["//"] [("/*", "*/")] ["// copyright\n"] true ["copyright"]
        = (["// copyright\n"], .correct 0 0) :=
  c4_idempotent_when_correct ["// copyright\n"] ["//"] [("/*", "*/")] ["// copyright\n"] true
    ["copyright"] ["// copyright\n"] 0 0 (by decide)

/-- C6: whenever `checkFile` locates a valid range `[b,e]` and replaces it,
the new content is `take b ++ padded header ++ drop (e+1)`: every line
strictly before `b` and strictly after `e` is preserved, and the padded
header is the canonical header with one leading blank line iff the newline
option is set and `b > 0` and one trailing blank line iff the newline option
is set and `e < len - 1`. -/
theorem c6_replace_frame
    (fileLines lineComments : List String) (blockComments : List (String × String))
    (license : List String) (insertNewLine : Bool) (indicators : List String)
    (out : List String) (b e : Nat)
    (h : checkFile fileLines lineComments blockComments license insertNewLine indicators
      = (out, .replaced b e)) :
    b ≤ e ∧ e < fileLines.length ∧
      out = fileLines.take b
        ++ ((if insertNewLine ∧ 0 < b then ["\n"] else []) ++ license
            ++ (if insertNewLine ∧ (e : Int) < (fileLines.length : Int) - 1
                then ["\n"] else []))
        ++ fileLines.drop (e + 1) := by
  have hr := checkFileLoop_replaced_eq fileLines lineComments blockComments license
    insertNewLine indicators.length indicators out b e h
  simpa [padLicense] using hr

/-- Witness for C6: replacing a one-line header at the top of a two-line
file, which gains exactly a trailing blank line. -/
theorem c6_replace_frame_witness :
    (0 : Nat) ≤ (0 : Nat) ∧ (0 : Nat) < (["// copyright old\n", "code\n"] : List String).length ∧
      (["// copyright new\n", "\n", "code\n"] : List String)
        = (["// copyright old\n", "code\n"] : List String).take 0
          ++ ((if (true : Bool) ∧ (0 : Nat) < (0 : Nat) then ["\n"] else [])
              ++ ["// copyright new\n"]
              ++ (if (true : Bool) ∧ ((0 : Nat) : Int) <
                    ((((["// copyright old\n", "code\n"] : List String).length : Nat)) : Int) - 1
                  then ["\n"] else []))
          ++ (["// copyright old\n", "code\n"] : List String).drop ((0 : Nat) + 1) :=
  c6_replace_frame ["// copyright old\n", "code\n"] ["//"] [("/*", "*/")] ["// copyright new\n"]
    true ["copyright"] ["// copyright new\n", "\n", "code\n"] 0 0 (by decide)

/-- C7: when no indicator matches anywhere (or every indicator's block
extraction fails), `checkFile` produces the canonical header, followed by
exactly one trailing blank line iff the newline option is set, followed by
the entire original file content unchanged. -/
theorem c7_fresh_insertion
    (fileLines lineComments : List String) (blockComments : List (String × String))
    (license : List String) (insertNewLine : Bool) (indicators : List String) :
    (indicators ≠ [] →
      findLicense fileLines indicators = (-1, -1) →
      checkFile fileLines lineComments blockComments license insertNewLine indicators
        = (license ++ (if insertNewLine then ["\n"] else []) ++ fileLines, .noIndicator)) ∧
    (∀ out oc,
      checkFile fileLines lineComments blockComments license insertNewLine indicators
        = (out, oc) → (oc = .noIndicator ∨ oc = .noValid) →
      out = license ++ (if insertNewLine then ["\n"] else []) ++ fileLines) := by
  constructor
  · intro hne hsent
    cases indicators with
    | nil => exact absurd rfl hne
    | cons ind0 rest =>
      rw [checkFile]
      simp only [List.length_cons, checkFileLoop]
      rw [if_neg (by simp)]
      simp only [hsent]
      norm_num
      rw [writeFile_top, List.append_assoc]
  · intro out oc h hoc
    exact checkFileLoop_insert_eq fileLines lineComments blockComments license insertNewLine
      indicators.length indicators out oc h hoc

/-- Witness for C7: a file with zero indicator matches gains the header and
one blank line at the top. -/
theorem c7_fresh_insertion_witness :
    checkFile ["x\n"] ["//"] [("/*", "*/")] ["L\n"] true ["license"]
      = (["L\n"] ++ (if (true : Bool) then ["\n"] else []) ++ ["x\n"], .noIndicator) :=
  (c7_fresh_insertion ["x\n"] ["//"] [("/*", "*/")] ["L\n"] true ["license"]).1
    (by decide) (by decide)

end FixLicense
